import Mathlib

/-!
Verification of the alert-evaluation core in `pkg/services/ngalert/eval/eval.go`.

The Go code is shallowly embedded: frames and fields from the
grafana-plugin-sdk-go `data` package are modelled as Lean structures,
`float64` sample values are modelled as exact rationals (the evaluator only
compares a value against zero, so exactness is faithful for every value the
claims mention), Go `(value, error)` returns become `Except`/`Option`, and
the external transform client and frame decoder are passed in as function
arguments.  Machine integers (`int64`, `time.Duration` in nanoseconds,
`time.Time` as `UnixNano`) are modelled as `Int`; Go's `/` on `int64`
truncates toward zero, which is `Int.tdiv`.
-/

namespace NgalertEval

/-- Field types of the plugin SDK `data` package; only `nullableFloat64` is
accepted by the evaluator, every other declared type is rejected, so a
representative set of the other variants suffices. -/
inductive FieldType where
  | nullableFloat64
  | float64
  | string
  | nullableString
  | bool
  | time
  | int64
  deriving DecidableEq, Repr

/-- `data.Labels` is a Go `map[string]string`; modelled as an association
list with unique keys in every state the SDK can build. -/
abbrev Labels := List (String × String)

/-- Insert a string into a sorted list of strings, preserving order. -/
def insertSorted (x : String) : List String → List String
  | [] => [x]
  | y :: ys => if x ≤ y then x :: y :: ys else y :: insertSorted x ys

/-- Sort a list of strings (insertion sort), as `sort.Strings` does in Go. -/
def sortStrings : List String → List String
  | [] => []
  | x :: xs => insertSorted x (sortStrings xs)

/-- Modelled from the spec: the SDK's `Labels.String()` ("compute a
canonical string form of the field's label set") is not under `src/`; it
sorts the keys and joins `key=value` pairs with a comma-space separator. -/
def labelsString (l : Labels) : String :=
  String.intercalate ", "
    ((sortStrings (l.map Prod.fst)).map fun k => k ++ "=" ++ ((l.lookup k).getD ""))

/-- One field (column) of a frame: its declared type, its label set and its
vector of samples.  The vector of a nullable-float64 field is `[]*float64`,
so each sample is `Option ℚ`; for the other declared types only the vector
length matters to the evaluator (they are rejected before any read). -/
structure Field where
  type : FieldType
  labels : Labels
  values : List (Option ℚ)
  deriving DecidableEq, Repr

/-- Modelled from the spec: the SDK's `Field.FloatAt` ("read the single
value at the row; the read fails (absent/undefined)") is not under `src/`;
reading an absent index or a null sample fails, a present sample is
returned. -/
def Field.floatAt (f : Field) (idx : Nat) : Option ℚ :=
  match f.values.get? idx with
  | none => none
  | some none => none
  | some (some v) => some v

/-- A `data.Frame`: a name and a list of fields. -/
structure Frame where
  name : String
  fields : List Field
  deriving DecidableEq, Repr

/-- Modelled from the spec: the SDK's `Frame.RowLen` is not under `src/`;
it fails on a frame with no fields ("frame's fields are nil or of zero
length") or with fields of differing lengths, and otherwise returns the
common field length. -/
def Frame.rowLen (f : Frame) : Except String Nat :=
  match f.fields with
  | [] => Except.error "frame fields are nil or of zero length"
  | g :: gs =>
    if gs.all fun h => h.values.length == g.values.length then
      Except.ok g.values.length
    else
      Except.error "frame has different field lengths"

/-- Errors `Condition.Execute` can produce, one constructor per
`fmt.Errorf`/propagated failure in the source. -/
inductive ExecError where
  | invalidConditions
  | clientErr (e : String)
  | decodeErr (e : String)
  | noResults
  deriving DecidableEq, Repr

/-- `executionResults`: the unevaluated results of executing a condition.
`Execute` never assigns `AlertDefinitionID`, so it keeps its zero value. -/
structure ExecutionResults where
  alertDefinitionID : Int
  error : Option ExecError
  results : List Frame
  deriving DecidableEq, Repr

/-- The evaluation `state` enum of the source (`normal`/`Alerting`). -/
inductive State where
  | normal
  | alerting
  deriving DecidableEq, Repr

/-- `result`: the evaluated state of one alert instance, identified by its
labels. -/
structure EResult where
  Instance : Labels
  state : State
  deriving DecidableEq, Repr

/-- Errors `EvaluateExecutionResult` can produce.  `panicOOB` models a Go
index-out-of-range panic at the unconditional `f.Fields[0]` read; the
safety claim is that it is unreachable. -/
inductive EvalError where
  | rowLenErr (msg : String)
  | invalidRowLen (name : String) (rowLen : Nat)
  | invalidFieldLen (name : String) (fieldLen : Nat)
  | invalidFieldType (name : String) (t : FieldType)
  | duplicateLabels (name : String) (labelsStr : String)
  | panicOOB
  deriving DecidableEq, Repr

/-- Lines 160–163 of the source: `state := normal; val, err := FloatAt(0);
if err != nil || val != 0 { state = Alerting }`. -/
def classify (fld : Field) : State :=
  match fld.floatAt 0 with
  | none => State.alerting
  | some v => if v ≠ 0 then State.alerting else State.normal

/-- The loop body of `EvaluateExecutionResult`, with the `labels` seen-set
and the `evalResults` accumulator made explicit.  Checks run in source
order: row count, field count, field type, label uniqueness, value read. -/
def evalLoop : List Frame → List String → List EResult → Except EvalError (List EResult)
  | [], _, acc => Except.ok acc
  | f :: rest, seen, acc =>
    match f.rowLen with
    | Except.error msg => Except.error (EvalError.rowLenErr msg)
    | Except.ok rowLen =>
      if 1 < rowLen then
        Except.error (EvalError.invalidRowLen f.name rowLen)
      else if 1 < f.fields.length then
        Except.error (EvalError.invalidFieldLen f.name f.fields.length)
      else
        match f.fields.head? with
        | none => Except.error EvalError.panicOOB
        | some fld =>
          if fld.type ≠ FieldType.nullableFloat64 then
            Except.error (EvalError.invalidFieldType f.name fld.type)
          else
            let labelsStr := labelsString fld.labels
            if seen.contains labelsStr then
              Except.error (EvalError.duplicateLabels f.name labelsStr)
            else
              evalLoop rest (labelsStr :: seen) (acc ++ [⟨fld.labels, classify fld⟩])

/-- `EvaluateExecutionResult`: validate each decoded series and derive a
verdict per uniquely-labelled series, aborting on the first violation. -/
def EvaluateExecutionResult (r : ExecutionResults) : Except EvalError (List EResult) :=
  evalLoop r.results [] []

/-- `backend.DataQuery`: one query of a condition.  `json` is the opaque
raw payload, `interval` a duration in nanoseconds, `timeFrom`/`timeTo` the
range bounds as `UnixNano` instants. -/
structure DataQuery where
  json : String
  interval : Int
  refID : String
  maxDataPoints : Int
  queryType : String
  timeFrom : Int
  timeTo : Int
  deriving DecidableEq, Repr

/-- `Condition`: backend expressions and queries plus the RefID of the one
whose evaluation matters. -/
structure Condition where
  refID : String
  queriesAndExpressions : List DataQuery
  deriving DecidableEq, Repr

/-- `Condition.IsValid`: true iff the query list is non-empty. -/
def Condition.IsValid (c : Condition) : Bool :=
  c.queriesAndExpressions.length ≠ 0

/-- `pluginv2.DataQuery`: one translated backend query descriptor. -/
structure PBDataQuery where
  json : String
  intervalMS : Int
  refId : String
  maxDataPoints : Int
  queryType : String
  fromEpochMS : Int
  toEpochMS : Int
  deriving DecidableEq, Repr

/-- The per-query translation in `Execute`'s loop:
`Interval.Milliseconds()` is `int64(d) / 1e6` and the range bounds are
`UnixNano() / 1e6`, both truncating toward zero (`Int.tdiv`). -/
def toPBDataQuery (q : DataQuery) : PBDataQuery :=
  { json := q.json
    intervalMS := Int.tdiv q.interval 1000000
    refId := q.refID
    maxDataPoints := q.maxDataPoints
    queryType := q.queryType
    fromEpochMS := Int.tdiv q.timeFrom 1000000
    toEpochMS := Int.tdiv q.timeTo 1000000 }

/-- The `Queries` list of the `pluginv2.QueryDataRequest` that `Execute`
builds, in the order of the condition's query list. -/
def Condition.pbQueries (c : Condition) : List PBDataQuery :=
  c.queriesAndExpressions.map toPBDataQuery

/-- The transform backend's response: a mapping from result identifier to
encoded frames, modelled as an association list (Go map keys are unique).
Each encoded frame is an opaque payload. -/
abbrev PBResponses := List (String × List String)

/-- The transform client port: send the translated queries, receive the
response mapping or an error. -/
abbrev TransformClient := List PBDataQuery → Except String PBResponses

/-- Modelled from the spec: the frame decoder
(`tsdb.NewEncodedDataFrames(...).Decoded()` is not under `src/`) turns a
raw encoded payload into structured frames or a decode error; it is passed
in abstractly. -/
abbrev FrameDecoder := List String → Except String (List Frame)

/-- The response loop of `Execute`: entries whose result identifier differs
from the condition's RefID are skipped; a matching entry is decoded,
assigning (not appending to) `result.Results`, and a decode failure
returns immediately. -/
def scanResponses (refID : String) (decode : FrameDecoder) :
    PBResponses → List Frame → Except String (List Frame)
  | [], acc => Except.ok acc
  | (rid, frames) :: rest, acc =>
    if rid ≠ refID then
      scanResponses refID decode rest acc
    else
      match decode frames with
      | Except.ok fs => scanResponses refID decode rest fs
      | Except.error e => Except.error e

/-- The pair `(*executionResults, error)` returned by `Execute`, plus the
number of calls made to the transform client (the source makes exactly one
remote call, and none when the condition is invalid). -/
structure ExecOutcome where
  res : Option ExecutionResults
  err : Option ExecError
  transformCalls : Nat
  deriving DecidableEq, Repr

/-- `Condition.Execute`: validity check, translation, remote call, decode
of the matching response entry, no-results check.  The transform client
and decoder are injected; `fromStr`/`toStr` are unused in the source. -/
def Condition.Execute (c : Condition) (client : TransformClient) (decode : FrameDecoder)
    (fromStr toStr : String) : ExecOutcome :=
  if !c.IsValid then
    ⟨none, some ExecError.invalidConditions, 0⟩
  else
    match client c.pbQueries with
    | Except.error e => ⟨some ⟨0, none, []⟩, some (ExecError.clientErr e), 1⟩
    | Except.ok resps =>
      match scanResponses c.refID decode resps [] with
      | Except.error e =>
        ⟨some ⟨0, some (ExecError.decodeErr e), []⟩, some (ExecError.decodeErr e), 1⟩
      | Except.ok frames =>
        if frames.length = 0 then
          ⟨some ⟨0, some ExecError.noResults, []⟩, some ExecError.noResults, 1⟩
        else
          ⟨some ⟨0, none, frames⟩, none, 1⟩

/-! ### Check predicates and helper functions for the evaluator -/

/-- The context-free part of the per-series contract: the row length is
readable and at most one, there is exactly one field, and its declared
type is nullable float64. -/
def framePassesB (f : Frame) : Bool :=
  match f.rowLen with
  | Except.error _ => false
  | Except.ok n =>
    decide (n ≤ 1) && decide (f.fields.length ≤ 1) &&
      (match f.fields.head? with
       | some fld => fld.type == FieldType.nullableFloat64
       | none => false)

/-- The canonical label string the uniqueness check computes for a series
(junk for a fieldless frame, which never reaches that check). -/
def frameLabelsStr (f : Frame) : String :=
  match f.fields.head? with
  | some fld => labelsString fld.labels
  | none => ""

/-- The uniqueness check across a series list: each series' canonical
label string is absent from the seen-set accumulated so far. -/
def freshLabelsB : List String → List Frame → Bool
  | _, [] => true
  | seen, f :: rest =>
    !(seen.contains (frameLabelsStr f)) && freshLabelsB (frameLabelsStr f :: seen) rest

/-- The eval result a passing series contributes (junk for a fieldless
frame, which never produces one). -/
def mkResult (f : Frame) : EResult :=
  match f.fields.head? with
  | some fld => ⟨fld.labels, classify fld⟩
  | none => ⟨[], State.alerting⟩

theorem rowLen_ok_fields_ne_nil {f : Frame} {n : Nat} (h : f.rowLen = Except.ok n) :
    f.fields ≠ [] := by
  intro hnil
  simp [Frame.rowLen, hnil] at h

theorem framePassesB_elim {f : Frame} (h : framePassesB f = true) :
    ∃ n fld, f.rowLen = Except.ok n ∧ n ≤ 1 ∧ f.fields = [fld] ∧
      fld.type = FieldType.nullableFloat64 := by
  unfold framePassesB at h
  cases hrl : f.rowLen with
  | error msg => rw [hrl] at h; simp at h
  | ok n =>
    rw [hrl] at h
    cases hfs : f.fields with
    | nil => rw [hfs] at h; simp at h
    | cons g gs =>
      rw [hfs] at h
      cases gs with
      | nil =>
        simp only [List.head?_cons, List.length_cons, List.length_nil, Bool.and_eq_true,
          decide_eq_true_eq, beq_iff_eq] at h
        exact ⟨n, g, rfl, h.1.1, rfl, h.2⟩
      | cons g2 gs2 => simp at h

theorem framePassesB_intro {f : Frame} {n : Nat} {fld : Field}
    (hrl : f.rowLen = Except.ok n) (hn : n ≤ 1) (hfs : f.fields = [fld])
    (hty : fld.type = FieldType.nullableFloat64) : framePassesB f = true := by
  unfold framePassesB
  rw [hrl, hfs]
  simp [List.head?, hty, Nat.lt_irrefl, hn]

/-! ### Step lemmas for the evaluation loop -/

theorem evalLoop_cons_pass {f : Frame} (rest : List Frame) (seen : List String)
    (acc : List EResult) (hp : framePassesB f = true)
    (hfresh : seen.contains (frameLabelsStr f) = false) :
    evalLoop (f :: rest) seen acc =
      evalLoop rest (frameLabelsStr f :: seen) (acc ++ [mkResult f]) := by
  obtain ⟨n, fld, hrl, hn, hfs, hty⟩ := framePassesB_elim hp
  have hlstr : frameLabelsStr f = labelsString fld.labels := by
    simp [frameLabelsStr, hfs]
  have hmk : mkResult f = ⟨fld.labels, classify fld⟩ := by
    simp [mkResult, hfs]
  rw [hlstr] at hfresh
  simp only [evalLoop, hrl, hfs, hlstr, hmk]
  simp [hty, hfresh, show ¬ 1 < n by omega]
  intro hmem
  exact absurd hmem (by simpa using hfresh)

theorem evalLoop_cons_rowLenErr {f : Frame} {msg : String} (rest : List Frame)
    (seen : List String) (acc : List EResult) (hrl : f.rowLen = Except.error msg) :
    evalLoop (f :: rest) seen acc = Except.error (EvalError.rowLenErr msg) := by
  simp [evalLoop, hrl]

theorem evalLoop_cons_multiRow {f : Frame} {n : Nat} (rest : List Frame)
    (seen : List String) (acc : List EResult) (hrl : f.rowLen = Except.ok n)
    (hn : 1 < n) :
    evalLoop (f :: rest) seen acc = Except.error (EvalError.invalidRowLen f.name n) := by
  simp [evalLoop, hrl, hn]

theorem evalLoop_cons_multiField {f : Frame} {n : Nat} (rest : List Frame)
    (seen : List String) (acc : List EResult) (hrl : f.rowLen = Except.ok n)
    (hn : ¬ 1 < n) (hlen : 1 < f.fields.length) :
    evalLoop (f :: rest) seen acc =
      Except.error (EvalError.invalidFieldLen f.name f.fields.length) := by
  simp [evalLoop, hrl, hn, hlen]

theorem evalLoop_cons_wrongType {f : Frame} {n : Nat} {fld : Field} (rest : List Frame)
    (seen : List String) (acc : List EResult) (hrl : f.rowLen = Except.ok n)
    (hn : ¬ 1 < n) (hfs : f.fields = [fld]) (hty : fld.type ≠ FieldType.nullableFloat64) :
    evalLoop (f :: rest) seen acc = Except.error (EvalError.invalidFieldType f.name fld.type) := by
  simp [evalLoop, hrl, hn, hfs, hty]

theorem evalLoop_cons_dup {f : Frame} {n : Nat} {fld : Field} (rest : List Frame)
    (seen : List String) (acc : List EResult) (hrl : f.rowLen = Except.ok n)
    (hn : ¬ 1 < n) (hfs : f.fields = [fld]) (hty : fld.type = FieldType.nullableFloat64)
    (hdup : seen.contains (labelsString fld.labels) = true) :
    evalLoop (f :: rest) seen acc =
      Except.error (EvalError.duplicateLabels f.name (labelsString fld.labels)) := by
  simp [evalLoop, hrl, hn, hfs, hty, hdup]
  intro hmem
  exact absurd (by simpa using hdup) hmem

theorem evalLoop_cons_notPass {f : Frame} (rest : List Frame) (seen : List String)
    (acc : List EResult) (hp : framePassesB f = false) :
    ∃ e, evalLoop (f :: rest) seen acc = Except.error e := by
  cases hrl : f.rowLen with
  | error msg => exact ⟨_, evalLoop_cons_rowLenErr rest seen acc hrl⟩
  | ok n =>
    by_cases hn : 1 < n
    · exact ⟨_, evalLoop_cons_multiRow rest seen acc hrl hn⟩
    · by_cases hlen : 1 < f.fields.length
      · exact ⟨_, evalLoop_cons_multiField rest seen acc hrl hn hlen⟩
      · have hne := rowLen_ok_fields_ne_nil hrl
        cases hfs : f.fields with
        | nil => exact absurd hfs hne
        | cons g gs =>
          cases gs with
          | nil =>
            by_cases hty : g.type = FieldType.nullableFloat64
            · exact absurd (framePassesB_intro hrl (by omega) hfs hty) (by simp [hp])
            · exact ⟨_, evalLoop_cons_wrongType rest seen acc hrl hn hfs hty⟩
          | cons g2 gs2 =>
            rw [hfs] at hlen
            simp at hlen

/-- Success characterization of the evaluation loop: it returns `ok` iff
every series passes the shape checks and every canonical label string is
fresh, and then the output is the accumulator extended by one result per
series, in order. -/
theorem evalLoop_ok_iff (fs : List Frame) (seen : List String) (acc out : List EResult) :
    evalLoop fs seen acc = Except.ok out ↔
      (fs.all framePassesB = true ∧ freshLabelsB seen fs = true ∧
        out = acc ++ fs.map mkResult) := by
  induction fs generalizing seen acc with
  | nil => simp [evalLoop, freshLabelsB, eq_comm]
  | cons f rest ih =>
    by_cases hp : framePassesB f = true
    · by_cases hfresh : seen.contains (frameLabelsStr f) = true
      · obtain ⟨n, fld, hrl, hn, hfs, hty⟩ := framePassesB_elim hp
        have hstr : frameLabelsStr f = labelsString fld.labels := by
          simp [frameLabelsStr, hfs]
        rw [hstr] at hfresh
        rw [evalLoop_cons_dup rest seen acc hrl (by omega) hfs hty hfresh]
        simp [freshLabelsB, hstr, hfresh]
        intro _ _ hnot _
        exact absurd (by simpa using hfresh) hnot
      · have hfresh' : seen.contains (frameLabelsStr f) = false := by
          simpa using hfresh
        rw [evalLoop_cons_pass rest seen acc hp hfresh', ih]
        simp [freshLabelsB, hp, hfresh', List.all_cons, List.append_assoc]
        intro _ _ _
        simpa using hfresh'
    · have hp' : framePassesB f = false := by simpa using hp
      obtain ⟨e, he⟩ := evalLoop_cons_notPass rest seen acc hp'
      rw [he]
      simp [List.all_cons, hp']

/-- The unconditional `f.Fields[0]` read never goes out of bounds: a frame
with no fields is rejected by the row-length read before the access. -/
theorem evalLoop_no_panic (fs : List Frame) (seen : List String) (acc : List EResult) :
    evalLoop fs seen acc ≠ Except.error EvalError.panicOOB := by
  induction fs generalizing seen acc with
  | nil => simp [evalLoop]
  | cons f rest ih =>
    cases hrl : f.rowLen with
    | error msg => rw [evalLoop_cons_rowLenErr rest seen acc hrl]; simp
    | ok n =>
      by_cases hn : 1 < n
      · rw [evalLoop_cons_multiRow rest seen acc hrl hn]; simp
      · by_cases hlen : 1 < f.fields.length
        · rw [evalLoop_cons_multiField rest seen acc hrl hn hlen]; simp
        · have hne := rowLen_ok_fields_ne_nil hrl
          cases hfs : f.fields with
          | nil => exact absurd hfs hne
          | cons g gs =>
            cases gs with
            | nil =>
              by_cases hty : g.type = FieldType.nullableFloat64
              · by_cases hdup : seen.contains (labelsString g.labels) = true
                · rw [evalLoop_cons_dup rest seen acc hrl hn hfs hty hdup]; simp
                · have hp := framePassesB_intro hrl (by omega) hfs hty
                  have hfr : seen.contains (frameLabelsStr f) = false := by
                    have hstr : frameLabelsStr f = labelsString g.labels := by
                      simp [frameLabelsStr, hfs]
                    rw [hstr]
                    simpa using hdup
                  rw [evalLoop_cons_pass rest seen acc hp hfr]
                  exact ih _ _
              · rw [evalLoop_cons_wrongType rest seen acc hrl hn hfs hty]; simp
            | cons g2 gs2 =>
              rw [hfs] at hlen
              simp at hlen

/-- A passing fresh-label chain yields pairwise-distinct canonical label
strings, none of which is in the initial seen-set. -/
theorem freshLabelsB_nodup (fs : List Frame) (seen : List String)
    (h : freshLabelsB seen fs = true) :
    (fs.map frameLabelsStr).Nodup ∧ ∀ s ∈ fs.map frameLabelsStr, s ∉ seen := by
  induction fs generalizing seen with
  | nil => simp
  | cons f rest ih =>
    simp only [freshLabelsB, Bool.and_eq_true, Bool.not_eq_true'] at h
    obtain ⟨h1, h2⟩ := h
    obtain ⟨hnd, hnotin⟩ := ih _ h2
    refine ⟨?_, ?_⟩
    · simp only [List.map_cons, List.nodup_cons]
      refine ⟨?_, hnd⟩
      intro hmem
      exact absurd (List.mem_cons_self _ _) (hnotin _ hmem)
    · intro s hs
      simp only [List.map_cons, List.mem_cons] at hs
      cases hs with
      | inl he => subst he; simpa using h1
      | inr hm =>
        intro hmem
        exact (hnotin _ hm) (by simp [hmem])

/-- Running the loop over a prefix of passing, fresh series steps through
to the remainder, extending the seen-set and accumulator accordingly. -/
theorem evalLoop_append (pre fs : List Frame) (seen : List String) (acc : List EResult)
    (hp : pre.all framePassesB = true) (hf : freshLabelsB seen pre = true) :
    evalLoop (pre ++ fs) seen acc =
      evalLoop fs ((pre.map frameLabelsStr).reverse ++ seen) (acc ++ pre.map mkResult) := by
  induction pre generalizing seen acc with
  | nil => simp
  | cons f rest ih =>
    simp only [List.all_cons, Bool.and_eq_true] at hp
    simp only [freshLabelsB, Bool.and_eq_true, Bool.not_eq_true'] at hf
    rw [List.cons_append, evalLoop_cons_pass (rest ++ fs) seen acc hp.1 (by simpa using hf.1)]
    rw [ih _ _ hp.2 hf.2]
    simp [List.append_assoc]

theorem classify_iff (fld : Field) :
    (classify fld = State.normal ↔ fld.floatAt 0 = some 0) ∧
    (classify fld = State.alerting ↔
      fld.floatAt 0 = none ∨ ∃ v, fld.floatAt 0 = some v ∧ v ≠ 0) := by
  unfold classify
  cases hv : fld.floatAt 0 with
  | none => simp
  | some v =>
    by_cases hz : v = 0
    · subst hz; simp
    · simp [hz]

theorem mem_of_getElem? {α : Type} {l : List α} {i : Nat} {a : α}
    (h : l[i]? = some a) : a ∈ l := by
  obtain ⟨hi, rfl⟩ := List.getElem?_eq_some.mp h
  exact List.getElem_mem hi

/-! ### The claims -/

/-- C1: for every series that passes the row-count, field-count, type and
uniqueness checks in `EvaluateExecutionResult` (that is, whenever the
whole evaluation succeeds), the produced eval result has state `normal`
iff reading the single value at row 0 succeeds and yields exactly zero,
and state `alerting` iff the read fails or yields a non-zero value. -/
theorem C1_normal_iff_zero (r : ExecutionResults) (out : List EResult)
    (h : EvaluateExecutionResult r = Except.ok out)
    (i : Nat) (f : Frame) (hf : r.results[i]? = some f) :
    ∃ fld res, f.fields = [fld] ∧ out[i]? = some res ∧
      (res.state = State.normal ↔ fld.floatAt 0 = some 0) ∧
      (res.state = State.alerting ↔
        fld.floatAt 0 = none ∨ ∃ v, fld.floatAt 0 = some v ∧ v ≠ 0) := by
  unfold EvaluateExecutionResult at h
  rw [evalLoop_ok_iff] at h
  obtain ⟨hall, hfresh, hout⟩ := h
  have hpass : framePassesB f = true := by
    rw [List.all_eq_true] at hall
    exact hall f (mem_of_getElem? hf)
  obtain ⟨n, fld, hrl, hn, hfs, hty⟩ := framePassesB_elim hpass
  have hmk : mkResult f = ⟨fld.labels, classify fld⟩ := by simp [mkResult, hfs]
  refine ⟨fld, mkResult f, hfs, ?_, ?_, ?_⟩
  · rw [hout]
    simp [List.getElem?_map, hf]
  · rw [hmk]
    exact (classify_iff fld).1
  · rw [hmk]
    exact (classify_iff fld).2

def c1Frame : Frame :=
  ⟨"A", [⟨FieldType.nullableFloat64, [("instance", "a")], [some 0]⟩]⟩

def c1Res : ExecutionResults := ⟨0, none, [c1Frame]⟩

def c1Out : List EResult := [⟨[("instance", "a")], State.normal⟩]

theorem C1_witness :
    ∃ fld res, c1Frame.fields = [fld] ∧ c1Out[0]? = some res ∧
      (res.state = State.normal ↔ fld.floatAt 0 = some 0) ∧
      (res.state = State.alerting ↔
        fld.floatAt 0 = none ∨ ∃ v, fld.floatAt 0 = some v ∧ v ≠ 0) :=
  C1_normal_iff_zero c1Res c1Out rfl 0 c1Frame rfl

/-- C2: if any series of the input violates one of the validation checks
(row count, field count, field type, duplicate label set), the whole
evaluation returns an error and no partial results: no `ok` output exists,
so no eval result is returned for any series, including series that
individually satisfy the contract. -/
theorem C2_abort_on_violation (r : ExecutionResults)
    (h : (r.results.all framePassesB && freshLabelsB [] r.results) = false) :
    (∃ e, EvaluateExecutionResult r = Except.error e) ∧
      ∀ out, EvaluateExecutionResult r ≠ Except.ok out := by
  have hnotok : ∀ out, EvaluateExecutionResult r ≠ Except.ok out := by
    intro out hok
    unfold EvaluateExecutionResult at hok
    rw [evalLoop_ok_iff] at hok
    obtain ⟨h1, h2, _⟩ := hok
    simp [h1, h2] at h
  refine ⟨?_, hnotok⟩
  cases he : EvaluateExecutionResult r with
  | ok out => exact absurd he (hnotok out)
  | error e => exact ⟨e, rfl⟩

def c2Good : Frame :=
  ⟨"G", [⟨FieldType.nullableFloat64, [("h", "1")], [some 0]⟩]⟩

def c2Bad : Frame := ⟨"B", [⟨FieldType.string, [], [some 1]⟩]⟩

def c2Res : ExecutionResults := ⟨0, none, [c2Good, c2Bad]⟩

theorem C2_witness :
    (∃ e, EvaluateExecutionResult c2Res = Except.error e) ∧
      ∀ out, EvaluateExecutionResult c2Res ≠ Except.ok out :=
  C2_abort_on_violation c2Res rfl

/-- C3: every input is processed without an out-of-bounds access: the
unconditional `f.Fields[0]` read (modelled by the `panicOOB` error) is
unreachable, because a zero-field series is rejected by the row-length
read before the first field is touched. -/
theorem C3_no_out_of_bounds (r : ExecutionResults) :
    EvaluateExecutionResult r ≠ Except.error EvalError.panicOOB :=
  evalLoop_no_panic r.results [] []

/-- C5: if two series of one execution result produce the same canonical
string form of their label set, evaluation fails with an error; and in
every successful output the canonical label strings of the eval results
are pairwise distinct. -/
theorem C5_unique_labels (r : ExecutionResults) :
    ((∃ (i j : Nat) (f g : Frame), i < j ∧ r.results[i]? = some f ∧ r.results[j]? = some g ∧
        frameLabelsStr f = frameLabelsStr g) →
      ∃ e, EvaluateExecutionResult r = Except.error e) ∧
    ∀ out, EvaluateExecutionResult r = Except.ok out →
      (out.map fun res => labelsString res.Instance).Nodup := by
  constructor
  · rintro ⟨i, j, f, g, hij, hfi, hgj, heq⟩
    cases he : EvaluateExecutionResult r with
    | error e => exact ⟨e, rfl⟩
    | ok out =>
      exfalso
      unfold EvaluateExecutionResult at he
      rw [evalLoop_ok_iff] at he
      obtain ⟨hall, hfresh, _⟩ := he
      have hnd := (freshLabelsB_nodup _ _ hfresh).1
      have h1 : (r.results.map frameLabelsStr)[i]? = some (frameLabelsStr f) := by
        simp [List.getElem?_map, hfi]
      have h2 : (r.results.map frameLabelsStr)[j]? = some (frameLabelsStr g) := by
        simp [List.getElem?_map, hgj]
      have hi : i < (r.results.map frameLabelsStr).length :=
        (List.getElem?_eq_some.mp h1).1
      have : i = j := by
        refine List.getElem?_inj hi hnd ?_
        rw [h1, h2, heq]
      omega
  · intro out hok
    unfold EvaluateExecutionResult at hok
    rw [evalLoop_ok_iff] at hok
    obtain ⟨hall, hfresh, hout⟩ := hok
    have hnd := (freshLabelsB_nodup _ _ hfresh).1
    have hmap : out.map (fun res => labelsString res.Instance) =
        r.results.map frameLabelsStr := by
      rw [hout]
      simp only [List.nil_append, List.map_map]
      apply List.map_congr_left
      intro f hmem
      have hpass : framePassesB f = true := by
        rw [List.all_eq_true] at hall
        exact hall f hmem
      obtain ⟨n, fld, hrl, hn, hfs, hty⟩ := framePassesB_elim hpass
      simp [Function.comp, mkResult, frameLabelsStr, hfs]
    rw [hmap]
    exact hnd

def c5FrameA : Frame :=
  ⟨"A", [⟨FieldType.nullableFloat64, [("host", "x")], [some 1]⟩]⟩

def c5FrameB : Frame :=
  ⟨"B", [⟨FieldType.nullableFloat64, [("host", "x")], [some 0]⟩]⟩

def c5Res : ExecutionResults := ⟨0, none, [c5FrameA, c5FrameB]⟩

theorem C5_witness : ∃ e, EvaluateExecutionResult c5Res = Except.error e :=
  (C5_unique_labels c5Res).1 ⟨0, 1, c5FrameA, c5FrameB, by omega, rfl, rfl, rfl⟩

/-- C6: a series with a readable row count greater than one makes
evaluation fail with a validation error naming the series and the row
count, whatever its fields or values; a series with zero rows is not
rejected by the row-count check but reaches the value read, and the
failed read classifies it `alerting`. -/
theorem C6_row_count (pre rest : List Frame) (f : Frame) (id0 : Int) (e0 : Option ExecError)
    (hctx : (pre.all framePassesB && freshLabelsB [] pre) = true) :
    (∀ n, f.rowLen = Except.ok n → 1 < n →
        EvaluateExecutionResult ⟨id0, e0, pre ++ f :: rest⟩ =
          Except.error (EvalError.invalidRowLen f.name n)) ∧
    (∀ fld, f.rowLen = Except.ok 0 → f.fields = [fld] →
        fld.type = FieldType.nullableFloat64 →
        (pre.map frameLabelsStr).contains (frameLabelsStr f) = false →
        EvaluateExecutionResult ⟨id0, e0, pre ++ [f]⟩ =
          Except.ok (pre.map mkResult ++ [⟨fld.labels, State.alerting⟩])) := by
  simp only [Bool.and_eq_true] at hctx
  obtain ⟨hall, hfr⟩ := hctx
  constructor
  · intro n hrl hn
    show evalLoop (pre ++ f :: rest) [] [] = _
    rw [evalLoop_append pre (f :: rest) [] [] hall hfr]
    exact evalLoop_cons_multiRow _ _ _ hrl hn
  · intro fld hrl hfs hty hfresh
    show evalLoop (pre ++ [f]) [] [] = _
    rw [evalLoop_append pre [f] [] [] hall hfr]
    have hp : framePassesB f = true := framePassesB_intro hrl (by omega) hfs hty
    have hnm : frameLabelsStr f ∉ pre.map frameLabelsStr := by
      intro hm
      have hc : (pre.map frameLabelsStr).contains (frameLabelsStr f) = true :=
        List.elem_iff.mpr hm
      rw [hc] at hfresh
      simp at hfresh
    have hfr2 : ((pre.map frameLabelsStr).reverse ++ []).contains (frameLabelsStr f) = false := by
      simp only [List.append_nil]
      rw [Bool.eq_false_iff]
      intro hc
      exact hnm (by simpa using List.elem_iff.mp hc)
    rw [evalLoop_cons_pass [] _ _ hp hfr2]
    have hvals : fld.values = [] := by
      unfold Frame.rowLen at hrl
      rw [hfs] at hrl
      simp at hrl
      exact hrl
    have hcl : classify fld = State.alerting := by
      unfold classify Field.floatAt
      rw [hvals]
      simp
    simp [evalLoop, mkResult, hfs, hcl]

def c6Frame : Frame :=
  ⟨"C", [⟨FieldType.nullableFloat64, [("a", "b")], [some 1, some 2]⟩]⟩

theorem C6_witness :
    EvaluateExecutionResult ⟨0, none, [c6Frame]⟩ =
      Except.error (EvalError.invalidRowLen "C" 2) :=
  (C6_row_count [] [] c6Frame 0 none rfl).1 2 rfl (by omega)

/-- C7: a series with a readable row count at most one but more than one
field makes evaluation fail with a validation error naming the series and
the field count; a single-field series whose field type is not nullable
float64 makes it fail with a validation error naming the series and the
actual type. -/
theorem C7_field_checks (pre rest : List Frame) (f : Frame) (id0 : Int) (e0 : Option ExecError)
    (hctx : (pre.all framePassesB && freshLabelsB [] pre) = true) :
    (∀ n, f.rowLen = Except.ok n → ¬ 1 < n → 1 < f.fields.length →
        EvaluateExecutionResult ⟨id0, e0, pre ++ f :: rest⟩ =
          Except.error (EvalError.invalidFieldLen f.name f.fields.length)) ∧
    (∀ n fld, f.rowLen = Except.ok n → ¬ 1 < n → f.fields = [fld] →
        fld.type ≠ FieldType.nullableFloat64 →
        EvaluateExecutionResult ⟨id0, e0, pre ++ f :: rest⟩ =
          Except.error (EvalError.invalidFieldType f.name fld.type)) := by
  simp only [Bool.and_eq_true] at hctx
  obtain ⟨hall, hfr⟩ := hctx
  constructor
  · intro n hrl hn hlen
    show evalLoop (pre ++ f :: rest) [] [] = _
    rw [evalLoop_append pre (f :: rest) [] [] hall hfr]
    exact evalLoop_cons_multiField _ _ _ hrl hn hlen
  · intro n fld hrl hn hfs hty
    show evalLoop (pre ++ f :: rest) [] [] = _
    rw [evalLoop_append pre (f :: rest) [] [] hall hfr]
    exact evalLoop_cons_wrongType _ _ _ hrl hn hfs hty

def c7Frame : Frame :=
  ⟨"D", [⟨FieldType.nullableFloat64, [("a", "b")], [some 1]⟩,
         ⟨FieldType.nullableFloat64, [("c", "d")], [some 2]⟩]⟩

theorem C7_witness :
    EvaluateExecutionResult ⟨0, none, [c7Frame]⟩ =
      Except.error (EvalError.invalidFieldLen "D" 2) :=
  (C7_field_checks [] [] c7Frame 0 none rfl).1 1 rfl (by omega) (by decide)

/-- Go's `int64` division truncates toward zero: the quotient is the sign
of the dividend times the quotient of the absolute values. -/
theorem tdiv_trunc (a : Int) (b : Nat) :
    Int.tdiv a b = a.sign * ((a.natAbs / b : Nat) : Int) := by
  cases a with
  | ofNat n =>
    cases n with
    | zero => simp
    | succ m =>
      show Int.tdiv (Int.ofNat (m + 1)) (Int.ofNat b) = _
      simp [Int.tdiv, Int.sign]
      rfl
  | negSucc n =>
    show Int.tdiv (Int.negSucc n) (Int.ofNat b) = _
    simp [Int.tdiv, Int.sign]

theorem tdiv_trunc_e6 (a : Int) :
    Int.tdiv a 1000000 = a.sign * ((a.natAbs / 1000000 : Nat) : Int) := by
  have hcast : ((1000000 : Nat) : Int) = (1000000 : Int) := by norm_cast
  calc Int.tdiv a 1000000 = Int.tdiv a ((1000000 : Nat) : Int) := by rw [hcast]
    _ = a.sign * ((a.natAbs / 1000000 : Nat) : Int) := tdiv_trunc a 1000000

/-- C8: the translated request has exactly one backend query descriptor
per query, in the condition's order, preserving the raw payload, result
identifier, query-type tag and max-data-points hint; the interval is
converted to whole milliseconds and each time-range bound to its
nanosecond instant divided by 1,000,000, both truncating toward zero. -/
theorem C8_translation (c : Condition) (i : Nat) (q : DataQuery)
    (hq : c.queriesAndExpressions[i]? = some q) :
    c.pbQueries.length = c.queriesAndExpressions.length ∧
    c.pbQueries[i]? = some
      { json := q.json
        intervalMS := q.interval.sign * ((q.interval.natAbs / 1000000 : Nat) : Int)
        refId := q.refID
        maxDataPoints := q.maxDataPoints
        queryType := q.queryType
        fromEpochMS := q.timeFrom.sign * ((q.timeFrom.natAbs / 1000000 : Nat) : Int)
        toEpochMS := q.timeTo.sign * ((q.timeTo.natAbs / 1000000 : Nat) : Int) } := by
  constructor
  · simp [Condition.pbQueries]
  · show (c.queriesAndExpressions.map toPBDataQuery)[i]? = _
    rw [List.getElem?_map, hq]
    show some (toPBDataQuery q) = _
    unfold toPBDataQuery
    rw [tdiv_trunc_e6, tdiv_trunc_e6, tdiv_trunc_e6]

def c8Query : DataQuery := ⟨"\x7b\x7d", 1500000000, "A", 100, "range", 5500000, -2500000⟩

def c8Cond : Condition := ⟨"A", [c8Query]⟩

theorem C8_witness :
    c8Cond.pbQueries.length = c8Cond.queriesAndExpressions.length ∧
    c8Cond.pbQueries[0]? = some
      { json := c8Query.json
        intervalMS := c8Query.interval.sign * ((c8Query.interval.natAbs / 1000000 : Nat) : Int)
        refId := c8Query.refID
        maxDataPoints := c8Query.maxDataPoints
        queryType := c8Query.queryType
        fromEpochMS := c8Query.timeFrom.sign * ((c8Query.timeFrom.natAbs / 1000000 : Nat) : Int)
        toEpochMS := c8Query.timeTo.sign * ((c8Query.timeTo.natAbs / 1000000 : Nat) : Int) } :=
  C8_translation c8Cond 0 c8Query rfl

/-- The response scan depends only on the entries whose result identifier
equals the condition's RefID: all other entries are skipped. -/
theorem scanResponses_filter (refID : String) (decode : FrameDecoder)
    (resps : PBResponses) (acc : List Frame) :
    scanResponses refID decode resps acc =
      scanResponses refID decode (resps.filter fun p => p.1 == refID) acc := by
  induction resps generalizing acc with
  | nil => rfl
  | cons p rest ih =>
    obtain ⟨rid, frames⟩ := p
    by_cases h : rid = refID
    · subst h
      simp only [List.filter_cons, beq_self_eq_true, if_pos]
      simp only [scanResponses, ne_eq, not_true_eq_false, if_false]
      cases hd : decode frames with
      | ok fs => exact ih fs
      | error e => rfl
    · have hb : (rid == refID) = false := by simp [h]
      simp only [List.filter_cons, hb, Bool.false_eq_true, if_false]
      simp only [scanResponses, ne_eq, h, not_false_eq_true, if_true]
      exact ih acc

/-- C9: `Execute` ignores response entries whose result identifier differs
from the condition's RefID, and if no entry matches, or the matching entry
decodes to zero series, it fails with the distinct no-results error. -/
theorem C9_result_scan (c : Condition) (client : TransformClient) (decode : FrameDecoder)
    (fromStr toStr : String) (resps : PBResponses)
    (hvalid : c.IsValid = true) (hclient : client c.pbQueries = Except.ok resps) :
    (∀ acc, scanResponses c.refID decode resps acc =
        scanResponses c.refID decode (resps.filter fun p => p.1 == c.refID) acc) ∧
    (((resps.filter fun p => p.1 == c.refID) = [] ∨
        ∃ p, (resps.filter fun p => p.1 == c.refID) = [p] ∧ decode p.2 = Except.ok []) →
      c.Execute client decode fromStr toStr =
        ⟨some ⟨0, some ExecError.noResults, []⟩, some ExecError.noResults, 1⟩) := by
  refine ⟨fun acc => scanResponses_filter c.refID decode resps acc, ?_⟩
  intro hcase
  have hscan : scanResponses c.refID decode resps [] = Except.ok [] := by
    rw [scanResponses_filter]
    rcases hcase with hnil | ⟨p, hp, hdec⟩
    · rw [hnil]; rfl
    · rw [hp]
      have hpred : p.1 = c.refID := by
        have hmem : p ∈ resps.filter fun p => p.1 == c.refID := by
          rw [hp]; exact List.mem_singleton.mpr rfl
        simpa using (List.mem_filter.mp hmem).2
      obtain ⟨rid, frames⟩ := p
      simp only at hpred hdec
      subst hpred
      simp [scanResponses, hdec]
  simp [Condition.Execute, hvalid, hclient, hscan]

def c9Cond : Condition := ⟨"A", [⟨"\x7b\x7d", 0, "A", 0, "", 0, 0⟩]⟩

def c9Client : TransformClient := fun _ => Except.ok [("B", ["payload"])]

def c9Decode : FrameDecoder := fun _ => Except.ok [⟨"f", []⟩]

theorem C9_witness :
    c9Cond.Execute c9Client c9Decode "" "" =
      ⟨some ⟨0, some ExecError.noResults, []⟩, some ExecError.noResults, 1⟩ :=
  (C9_result_scan c9Cond c9Client c9Decode "" "" [("B", ["payload"])] rfl rfl).2
    (Or.inl rfl)

/-- C10: a condition with an empty query list fails with the
invalid-condition error and makes no call to the transform client. -/
theorem C10_invalid_condition (c : Condition) (client : TransformClient)
    (decode : FrameDecoder) (fromStr toStr : String)
    (h : c.queriesAndExpressions = []) :
    c.Execute client decode fromStr toStr =
      ⟨none, some ExecError.invalidConditions, 0⟩ := by
  have hv : c.IsValid = false := by simp [Condition.IsValid, h]
  unfold Condition.Execute
  rw [hv]
  rfl

theorem C10_witness :
    (Condition.Execute ⟨"A", []⟩ (fun _ => Except.error "never called")
        (fun _ => Except.ok []) "" "") =
      ⟨none, some ExecError.invalidConditions, 0⟩ :=
  C10_invalid_condition ⟨"A", []⟩ (fun _ => Except.error "never called")
    (fun _ => Except.ok []) "" "" rfl

def c4Query : DataQuery := ⟨"\x7b\x7d", 1500000000, "A", 100, "", 0, 1000000000⟩

def c4Cond : Condition := ⟨"A", [c4Query]⟩

def c4Client : TransformClient := fun _ => Except.error "transform failed"

def c4Decode : FrameDecoder := fun _ => Except.ok []

/-- C4 counterexample: the transform client fails, `Execute` returns that
failure as its error value, yet the `Error` field of the returned
`executionResults` is unset (`none`), contradicting the claim that the
result carries the remote failure in its `Error` field. -/
theorem C4_counterexample :
    (c4Cond.Execute c4Client c4Decode "" "").err =
        some (ExecError.clientErr "transform failed") ∧
      (c4Cond.Execute c4Client c4Decode "" "").res = some ⟨0, none, []⟩ :=
  ⟨rfl, rfl⟩

/-- C4 (amended): the `Error` field of the returned `executionResults` is
set when decoding fails or when the no-results check fails; a transform
client failure is returned as `Execute`'s error value alongside an
`executionResults` whose `Error` field is unset; a translation (invalid
condition) failure returns no `executionResults` at all. -/
theorem C4_error_field (c : Condition) (client : TransformClient) (decode : FrameDecoder)
    (fromStr toStr : String) :
    (c.IsValid = false →
      c.Execute client decode fromStr toStr = ⟨none, some ExecError.invalidConditions, 0⟩) ∧
    (∀ e, c.IsValid = true → client c.pbQueries = Except.error e →
      c.Execute client decode fromStr toStr =
        ⟨some ⟨0, none, []⟩, some (ExecError.clientErr e), 1⟩) ∧
    (∀ resps e, c.IsValid = true → client c.pbQueries = Except.ok resps →
      scanResponses c.refID decode resps [] = Except.error e →
      c.Execute client decode fromStr toStr =
        ⟨some ⟨0, some (ExecError.decodeErr e), []⟩, some (ExecError.decodeErr e), 1⟩) ∧
    (∀ resps, c.IsValid = true → client c.pbQueries = Except.ok resps →
      scanResponses c.refID decode resps [] = Except.ok [] →
      c.Execute client decode fromStr toStr =
        ⟨some ⟨0, some ExecError.noResults, []⟩, some ExecError.noResults, 1⟩) := by
  refine ⟨?_, ?_, ?_, ?_⟩
  · intro hv
    unfold Condition.Execute
    rw [hv]
    rfl
  · intro e hv hcl
    unfold Condition.Execute
    rw [hv]
    simp only [Bool.not_true, Bool.false_eq_true, if_false]
    rw [hcl]
  · intro resps e hv hcl hscan
    simp [Condition.Execute, hv, hcl, hscan]
  · intro resps hv hcl hscan
    simp [Condition.Execute, hv, hcl, hscan]

theorem C4_witness :
    c4Cond.Execute c4Client c4Decode "" "" =
      ⟨some ⟨0, none, []⟩, some (ExecError.clientErr "transform failed"), 1⟩ :=
  (C4_error_field c4Cond c4Client c4Decode "" "").2.1 "transform failed" rfl rfl

end NgalertEval
